import Mathlib

/-!
Verification of the Chinese resident identity-number toolkit
(`id_card_toolkit.py`, class `IDCardToolkit`).

Modelling conventions:
* Python strings are `List Char`; character classes (`str.isdigit`,
  `str.strip`, `str.upper`) are modelled over their ASCII ranges, which is
  the alphabet identity numbers and the toolkit's own tables use.
* The region table loaded from `pca-code.json` (not part of the sources)
  is a parameter: an association list from region code to full name.
* The current time, used by `validate` for the future-date check, is a
  parameter `(year, month, day)`.  `datetime.strptime` yields midnight of
  the parsed day, so `birth_date > datetime.now()` is equivalent to a
  lexicographic comparison of the date triples.
* Python exceptions escaping a function are modelled with `Except`;
  functions that cannot raise are plain functions.
-/

abbrev Chars := List Char

/-- Whitespace stripped by `str.strip` (ASCII range). -/
def pyIsSpace (c : Char) : Bool :=
  decide (c.toNat = 32 ∨ c.toNat = 9 ∨ c.toNat = 10 ∨ c.toNat = 13 ∨
          c.toNat = 11 ∨ c.toNat = 12)

/-- Decimal digit test used by `str.isdigit` on identity-number characters. -/
def isAsciiDigit (c : Char) : Bool :=
  decide (48 ≤ c.toNat ∧ c.toNat ≤ 57)

/-- Numeric value of a decimal digit character (`int(c)` for a digit). -/
def digitVal (c : Char) : Nat := c.toNat - 48

/-- `str.upper` on one character (ASCII case mapping). -/
def asciiUpper (c : Char) : Char :=
  if 97 ≤ c.toNat ∧ c.toNat ≤ 122 then Char.ofNat (c.toNat - 32) else c

/-- `str.strip`: drop whitespace from both ends. -/
def pyStrip (s : Chars) : Chars :=
  ((s.dropWhile pyIsSpace).reverse.dropWhile pyIsSpace).reverse

/-- `str.upper` on a string. -/
def pyUpper (s : Chars) : Chars := s.map asciiUpper

/-- `str.isdigit`: nonempty and all digits. -/
def pyIsdigit (s : Chars) : Bool := !s.isEmpty && s.all isAsciiDigit

/-- Numeric value of a digit string. -/
def natVal (s : Chars) : Nat := s.foldl (fun a c => 10 * a + digitVal c) 0

/-- Python `int(s)` for the strings arising here: surrounding whitespace is
ignored, then a nonempty run of digits is required.  (Signs and underscore
separators never occur at the modelled call sites.) -/
def pyIntNat (s : Chars) : Option Nat :=
  let t := pyStrip s
  if pyIsdigit t then some (natVal t) else none

/-- Weight table `self.WEIGHTS` from `IDCardToolkit.__init__`. -/
def WEIGHTS : List Nat := [7, 9, 10, 5, 8, 4, 2, 1, 6, 3, 7, 9, 10, 5, 8, 4, 2]

/-- Check-character table `self.CHECKSUM_MAP` from `IDCardToolkit.__init__`. -/
def CHECKSUM_MAP : Chars := ['1', '0', 'X', '9', '8', '7', '6', '5', '4', '3', '2']

/-- The weighted digit sum `sum(int(digit) * weight for digit, weight in zip(id_prefix, self.WEIGHTS))`. -/
def weightedSum (p : Chars) : Nat :=
  (List.zipWith (fun c w => digitVal c * w) p WEIGHTS).sum

/-- The check character selected by the weighted sum (the value
`self.CHECKSUM_MAP[total % 11]`). -/
def checksumOf (p : Chars) : Char := CHECKSUM_MAP.getD (weightedSum p % 11) '?'

/-- `IDCardToolkit._calculate_checksum`: `none` models the `ValueError`
raised when the argument is not a 17-character digit string. -/
def calculateChecksum (p : Chars) : Option Char :=
  if p.length = 17 ∧ pyIsdigit p then some (checksumOf p) else none

/-! Model of `datetime.datetime.strptime(s, "%Y%m%d")`.

CPython compiles the format to the regex
`(\d\d\d\d)(1[0-2]|0[1-9]|[1-9])(3[01]|[12]\d|0[1-9]|[1-9])`,
matched at the start of the string with ordered alternation and
backtracking; parsing fails (`ValueError`) when the regex does not match,
when unconverted characters remain after the match, or when the matched
numbers do not form a real calendar date (`datetime` accepts years 1-9999).
-/

/-- Leap-year rule used by `datetime`. -/
def isLeap (y : Nat) : Bool :=
  decide ((y % 4 = 0 ∧ y % 100 ≠ 0) ∨ y % 400 = 0)

/-- Days in a month, as validated by the `datetime` constructor. -/
def daysInMonth (y m : Nat) : Nat :=
  if m = 2 then (if isLeap y then 29 else 28)
  else if m = 4 ∨ m = 6 ∨ m = 9 ∨ m = 11 then 30
  else 31

/-- A calendar date as a `(year, month, day)` triple. -/
abbrev Ymd := Nat × Nat × Nat

/-- Candidate matches of the month group `1[0-2]|0[1-9]|[1-9]`, in the
order the regex engine tries them (two-digit alternatives first). -/
def monthAlts : Chars → List (Nat × Chars)
  | c1 :: c2 :: rest =>
    (if (c1 = '1' ∧ '0' ≤ c2 ∧ c2 ≤ '2') ∨ (c1 = '0' ∧ '1' ≤ c2 ∧ c2 ≤ '9')
     then [(natVal [c1, c2], rest)] else [])
    ++ (if '1' ≤ c1 ∧ c1 ≤ '9' then [(digitVal c1, c2 :: rest)] else [])
  | [c1] => if '1' ≤ c1 ∧ c1 ≤ '9' then [(digitVal c1, [])] else []
  | [] => []

/-- Candidate matches of the day group `3[01]|[12]\d|0[1-9]|[1-9]`, in the
order the regex engine tries them. -/
def dayAlts : Chars → List (Nat × Chars)
  | c1 :: c2 :: rest =>
    (if (c1 = '3' ∧ '0' ≤ c2 ∧ c2 ≤ '1') ∨
        (('1' ≤ c1 ∧ c1 ≤ '2') ∧ isAsciiDigit c2 = true) ∨
        (c1 = '0' ∧ '1' ≤ c2 ∧ c2 ≤ '9')
     then [(natVal [c1, c2], rest)] else [])
    ++ (if '1' ≤ c1 ∧ c1 ≤ '9' then [(digitVal c1, c2 :: rest)] else [])
  | [c1] => if '1' ≤ c1 ∧ c1 ≤ '9' then [(digitVal c1, [])] else []
  | [] => []

/-- `datetime.strptime(s, "%Y%m%d")`: `none` models `ValueError`.  The
regex engine commits to the first month alternative whose remainder admits
a day match (backtracking), the whole input must be consumed, and the
triple must be a real calendar date. -/
def strptimeYmd (s : Chars) : Option Ymd :=
  match s with
  | y1 :: y2 :: y3 :: y4 :: rest =>
    if [y1, y2, y3, y4].all isAsciiDigit then
      let y := natVal [y1, y2, y3, y4]
      match (monthAlts rest).findSome?
          (fun p => ((dayAlts p.2).head?).map (fun q => (p.1, q.1, q.2))) with
      | some (m, d, []) =>
        if 1 ≤ y ∧ 1 ≤ d ∧ d ≤ daysInMonth y m then some (y, m, d) else none
      | _ => none
    else none
  | _ => none

/-- Date comparison `birth_date > datetime.datetime.now()`: `strptime`
yields midnight of the parsed day, so the comparison holds exactly when
the birth triple is lexicographically after the current date. -/
def dateAfter (b t : Ymd) : Bool :=
  decide (b.1 > t.1 ∨ (b.1 = t.1 ∧ (b.2.1 > t.2.1 ∨ (b.2.1 = t.2.1 ∧ b.2.2 > t.2.2))))

/-- The flattened region table `self.area_codes`: code to full name. -/
abbrev AreaTable := List (Chars × Chars)

/-- Key membership `code in self.area_codes`. -/
def hasCode (t : AreaTable) (c : Chars) : Bool := t.any (fun p => p.1 = c)

/-- Outcome of `IDCardToolkit.validate`, one constructor per distinct
`(bool, reason)` shape the source returns. -/
inductive VResult where
  | lengthError
  | formatErrorDigits
  | formatErrorLast
  | addressError (code : Chars)
  | dateErrorFormat (s : Chars)
  | dateErrorFuture (s : Chars)
  | checksumError (expected provided : Char)
  | internalError
  | valid
deriving DecidableEq

/-- Truth value of the returned pair's first component. -/
def VResult.ok : VResult → Bool
  | .valid => true
  | _ => false

/-- Body of `IDCardToolkit.validate` after the normalization on its first
line (`id_number = id_number.strip().upper()`). -/
def validateCore (A : AreaTable) (T : Ymd) (id : Chars) : VResult :=
  if ¬ id.length = 18 then .lengthError
  else if ¬ pyIsdigit (id.take 17) then .formatErrorDigits
  else if ¬ (isAsciiDigit ((id.drop 17).headD ' ') = true ∨ (id.drop 17).headD ' ' = 'X') then
    .formatErrorLast
  else if ¬ hasCode A (id.take 6) then .addressError (id.take 6)
  else
    match strptimeYmd ((id.drop 6).take 8) with
    | none => .dateErrorFormat ((id.drop 6).take 8)
    | some b =>
      if dateAfter b T then .dateErrorFuture ((id.drop 6).take 8)
      else
        match calculateChecksum (id.take 17) with
        | none => .internalError
        | some c =>
          if ¬ (id.drop 17).headD ' ' = c then .checksumError c ((id.drop 17).headD ' ')
          else .valid

/-- `IDCardToolkit.validate`: strips and uppercases, then runs the checks. -/
def validate (A : AreaTable) (T : Ymd) (id_number : Chars) : VResult :=
  validateCore A T (pyUpper (pyStrip id_number))

/-! Claim-level description of the check cascade: the same six checks in
the same order, with the check character computed by the total table-lookup
formula (no internal-error fallback). -/

/-- An uncaught Python exception. -/
inductive PyErr where
  | valueError
deriving DecidableEq

/-- Fields of the dictionary built by `parse` (the three display-name
lookups into the region table, pure presentation with literal fallback
strings, are elided; the codes they are keyed by are kept). -/
structure ParsedIdentity where
  address_code : Chars
  province_code : Chars
  city_code : Chars
  birth_date : Ymd
  age : Int
  gender_male : Bool
  sequence_code : Chars
  checksum : Char
deriving DecidableEq

/-- Result dictionary of `parse`: either the invalid marker with the
validation message, or the parsed fields. -/
inductive ParseOutcome where
  | invalid (error : VResult)
  | parsed (p : ParsedIdentity)
deriving DecidableEq

/-- Python tuple comparison `(a, b) < (c, d)` on numbers. -/
def pairLt (a b : Nat × Nat) : Bool :=
  decide (a.1 < b.1 ∨ (a.1 = b.1 ∧ a.2 < b.2))

/-- `IDCardToolkit.parse`.  The `.error` results model the uncaught
`ValueError` that `strptime` (line 76) or `int` (line 79) raise on the raw
string after `validate` accepted the normalized one. -/
def parseId (A : AreaTable) (T : Ymd) (id_number : Chars) : Except PyErr ParseOutcome :=
  if ¬ (validate A T id_number).ok = true then .ok (.invalid (validate A T id_number))
  else
    match strptimeYmd ((id_number.drop 6).take 8) with
    | none => .error .valueError
    | some b =>
      match pyIntNat ((id_number.drop 14).take 3), pyIntNat ((id_number.drop 16).take 1) with
      | some _, some g =>
        .ok (.parsed {
          address_code := id_number.take 6
          province_code := id_number.take 2
          city_code := id_number.take 4
          birth_date := b
          age := (T.1 : Int) - b.1 - (if pairLt (T.2.1, T.2.2) (b.2.1, b.2.2) then 1 else 0)
          gender_male := decide (g % 2 ≠ 0)
          sequence_code := (id_number.drop 14).take 3
          checksum := id_number.getLastD ' ' })
      | _, _ => .error .valueError

/-! Model of `IDCardToolkit.guess`. -/

/-- Zero-padded three-digit formatting `f"{i:03d}"`. -/
def pad3 (i : Nat) : Chars :=
  if i < 1000 then
    [Nat.digitChar (i / 100), Nat.digitChar (i / 10 % 10), Nat.digitChar (i % 10)]
  else Nat.toDigits 10 i

/-- Python `range(start, stop, step)` for a positive step. -/
def pyRange (start stop step : Nat) : List Nat :=
  List.range' start ((stop - start + step - 1) / step) step

/-- Result of `guess`: the source signals the three argument errors by
returning a one-element list holding an error message; the constructors
model which message. -/
inductive GuessResult where
  | errArea (code : Chars)
  | errDate (s : Chars)
  | errGender
  | ok (ids : List Chars)
deriving DecidableEq

/-- `IDCardToolkit.guess`.  The `.error` result models the uncaught
`ValueError` from `_calculate_checksum` when the concatenated prefix is
not 17 digits. -/
def guess (A : AreaTable) (area_code birth_date gender0 : Chars) :
    Except PyErr GuessResult :=
  if ¬ hasCode A area_code = true then .ok (.errArea area_code)
  else if (strptimeYmd birth_date).isNone then .ok (.errDate birth_date)
  else if ¬ (pyUpper gender0 = ['M'] ∨ pyUpper gender0 = ['F']) then .ok .errGender
  else
    match (pyRange (if pyUpper gender0 = ['M'] then 1 else 2) 1000 2).mapM
        (fun i => (calculateChecksum (area_code ++ birth_date ++ pad3 i)).map
          (fun ck => area_code ++ birth_date ++ pad3 i ++ [ck])) with
    | some ids => .ok (.ok ids)
    | none => .error .valueError

/-! Helper facts for the generated candidate ids. -/

/-- Region table used for concrete instances: one Beijing district code. -/
def demoTable : AreaTable := [("110105".toList, [])]

/-- Current date used for concrete instances. -/
def demoToday : Ymd := (2026, 10, 12)

/-! The enumeration performed by `guess`. -/

/-- Candidate list produced by a successful `guess` call. -/
def guessIds (r : Except PyErr GuessResult) : List Chars :=
  match r with
  | .ok (.ok l) => l
  | _ => []

/-- Sequence-code slice (characters 14-16) of an 18-character id. -/
def seqDigits (s : Chars) : Chars := (s.drop 14).take 3

/-! Model of `IDCardToolkit.analyze_population_sample`. -/

/-- Bucket key `(id_number[:6], id_number[6:14])`. -/
def keyOf (s : Chars) : Chars × Chars := (s.take 6, (s.drop 6).take 8)

/-- Observed sequence lists of one `(region, date)` bucket. -/
structure BucketData where
  male_seqs : List Nat
  female_seqs : List Nat
deriving DecidableEq

instance : Inhabited BucketData := ⟨⟨[], []⟩⟩

/-- Append one observed sequence value per the odd/even rule (lines
106-107 of the source). -/
def bucketPut (d : BucketData) (seq : Nat) : BucketData :=
  if seq % 2 ≠ 0 then { d with male_seqs := d.male_seqs ++ [seq] }
  else { d with female_seqs := d.female_seqs ++ [seq] }

/-- Insertion-ordered association list standing for the `defaultdict`
`stats`. -/
def bucketAdd : List ((Chars × Chars) × BucketData) → (Chars × Chars) → Nat →
    List ((Chars × Chars) × BucketData)
  | [], k, seq => [(k, bucketPut ⟨[], []⟩ seq)]
  | (k0, d) :: rest, k, seq =>
    if k0 = k then (k0, bucketPut d seq) :: rest
    else (k0, d) :: bucketAdd rest k seq

/-- Python `max(l) if l else 0` over naturals. -/
def maxD (l : List Nat) : Nat := l.foldr max 0

/-- One entry of the analysis report: the per-bucket numbers the source
stores as the dict value (the constant remark string is elided). -/
structure AnalysisEntry where
  sample_count : Nat
  estimated_males : Nat
  estimated_females : Nat
  estimated_total : Nat
deriving DecidableEq

/-- Per-bucket estimates (lines 113-115 of the source). -/
def mkEntry (kd : (Chars × Chars) × BucketData) : AnalysisEntry :=
  { sample_count := kd.2.male_seqs.length + kd.2.female_seqs.length
    estimated_males :=
      if maxD kd.2.male_seqs > 0 then (maxD kd.2.male_seqs + 1) / 2 else 0
    estimated_females :=
      if maxD kd.2.female_seqs > 0 then maxD kd.2.female_seqs / 2 else 0
    estimated_total :=
      (if maxD kd.2.male_seqs > 0 then (maxD kd.2.male_seqs + 1) / 2 else 0)
      + (if maxD kd.2.female_seqs > 0 then maxD kd.2.female_seqs / 2 else 0) }

/-- Display name of a region code: `self.area_codes.get(area_code, "未知地区")`
(line 112 of the source). -/
def areaNameOf (A : AreaTable) (code : Chars) : Chars :=
  match A.find? (fun p => p.1 = code) with
  | some p => p.2
  | none => "未知地区".toList

/-- Report label of a bucket, the dict key `f"{area_name} ({date_str})"`. -/
def entryLabel (A : AreaTable) (k : Chars × Chars) : Chars :=
  areaNameOf A k.1 ++ (' ' :: '(' :: (k.2 ++ [')']))

/-- The dict assignment `analysis_report[label] = entry`: an existing
key's value is overwritten in place, a new key is appended. -/
def reportPut : List (Chars × AnalysisEntry) → Chars → AnalysisEntry →
    List (Chars × AnalysisEntry)
  | [], lbl, e => [(lbl, e)]
  | (l0, e0) :: rest, lbl, e =>
    if l0 = lbl then (l0, e) :: rest else (l0, e0) :: reportPut rest lbl e

/-- The `analysis_report` dict, built over the buckets in insertion order
(lines 109-115): two buckets whose display labels collide (duplicate full
names in the table, or the unknown-region fallback) end up under one key,
the later bucket's entry overwriting the earlier one's. -/
def buildReport (A : AreaTable) (stats : List ((Chars × Chars) × BucketData)) :
    List (Chars × AnalysisEntry) :=
  stats.foldl (fun rep kd => reportPut rep (entryLabel A kd.1) (mkEntry kd)) []

/-- Result of `analyze_population_sample`. -/
structure AnalyzeResult where
  total_records : Nat
  valid_records : Nat
  invalid_records : Nat
  analysis_report : List (Chars × AnalysisEntry)
  invalid_details : List (Chars × VResult)
deriving DecidableEq

/-- `IDCardToolkit.analyze_population_sample`; `.error` models the
uncaught `ValueError` from `int` on an accepted id whose characters 14-16
hold no digits (only possible with 17 or more leading whitespace
characters). -/
def analyze (A : AreaTable) (T : Ymd) (ids : List Chars) : Except PyErr AnalyzeResult :=
  match (ids.filter (fun s => (validate A T s).ok)).foldlM
      (fun stats s => (pyIntNat ((s.drop 14).take 3)).map
        (fun seq => bucketAdd stats (keyOf s) seq)) [] with
  | none => .error .valueError
  | some stats =>
    .ok { total_records := ids.length
          valid_records := (ids.filter (fun s => (validate A T s).ok)).length
          invalid_records := (ids.filter (fun s => !(validate A T s).ok)).length
          analysis_report := buildReport A stats
          invalid_details := (ids.filter (fun s => !(validate A T s).ok)).map
            (fun s => (s, validate A T s)) }

/-- Observed sequence value of an id (total; used under the hypothesis
that the conversion succeeds). -/
def seqValOf (s : Chars) : Nat := (pyIntNat ((s.drop 14).take 3)).getD 0

/-- Claim-side bucket content: sequence values of the accepted ids with
key `k` and parity `par`, in input order. -/
def parSeqsSpec (A : AreaTable) (T : Ymd) (ids : List Chars) (k : Chars × Chars)
    (par : Nat) : List Nat :=
  (ids.filter (fun s => (validate A T s).ok && decide (keyOf s = k)
      && decide (seqValOf s % 2 = par))).map seqValOf

/-- First-match lookup in the stats association list (Python dict access;
the keys are kept duplicate-free by `bucketAdd`). -/
def findBucket : List ((Chars × Chars) × BucketData) → (Chars × Chars) → BucketData
  | [], _ => ⟨[], []⟩
  | (k0, d) :: rest, k => if k0 = k then d else findBucket rest k

/-- The stats-building fold over the accepted ids (lines 104-107). -/
def foldStats (ids : List Chars) (stats : List ((Chars × Chars) × BucketData)) :
    List ((Chars × Chars) × BucketData) :=
  ids.foldl (fun st s => bucketAdd st (keyOf s) (seqValOf s)) stats

/-! Model of `IDCardToolkit.__init__` (lines 16-26): the file-system
outcome of reading `pca-code.json` is abstracted into a value. -/

/-- A node of the hierarchical region document. -/
inductive RegionNode where
  | mk (code : Chars) (name : Chars) (children : List RegionNode)

/-- `IDCardToolkit._flatten_codes`: depth-first flattening with
ancestor-name concatenation.  (On duplicate codes the Python dict keeps
the last write where this association list keeps the first; key
membership, the only thing the toolkit reads, is identical.) -/
def flattenCodes : Chars → List RegionNode → AreaTable
  | _, [] => []
  | parent, RegionNode.mk c n ch :: rest =>
    (c, parent ++ n) :: (flattenCodes (parent ++ n) ch ++ flattenCodes parent rest)

/-- Outcome of opening and parsing the region data source. -/
inductive ReadResult where
  | missing
  | malformed
  | parsed (data : List RegionNode)

/-- `IDCardToolkit.__init__`: a missing file is caught (only a message is
printed) and the toolkit is built with an empty table; a file that does
not parse raises an uncaught `json.JSONDecodeError` (a `ValueError`
subclass); a parsed document is flattened. -/
def initCodes : ReadResult → Except PyErr AreaTable
  | .missing => .ok []
  | .malformed => .error .valueError
  | .parsed data => .ok (flattenCodes [] data)

/-! Basic facts about the character classes. -/

theorem pyIsSpace_false_of_digit {c : Char} (h : isAsciiDigit c = true) :
    pyIsSpace c = false := by
  simp only [isAsciiDigit, decide_eq_true_eq] at h
  simp only [pyIsSpace, decide_eq_false_iff_not]
  omega

theorem asciiUpper_digit {c : Char} (h : isAsciiDigit c = true) :
    asciiUpper c = c := by
  simp only [isAsciiDigit, decide_eq_true_eq] at h
  simp only [asciiUpper, ite_eq_right_iff]
  omega

theorem toNat_charOfNat {n : Nat} (h : n < 55296) : (Char.ofNat n).toNat = n := by
  have hv : n.isValidChar := Or.inl h
  simp only [Char.ofNat, hv, dite_true]
  rfl

theorem toNat_asciiUpper_lower {c : Char} (h : 97 ≤ c.toNat ∧ c.toNat ≤ 122) :
    (asciiUpper c).toNat = c.toNat - 32 := by
  simp only [asciiUpper, if_pos h]
  exact toNat_charOfNat (by omega)

theorem asciiUpper_idem (c : Char) : asciiUpper (asciiUpper c) = asciiUpper c := by
  by_cases h : 97 ≤ c.toNat ∧ c.toNat ≤ 122
  · have ht := toNat_asciiUpper_lower h
    have : ¬ (97 ≤ (asciiUpper c).toNat ∧ (asciiUpper c).toNat ≤ 122) := by omega
    exact if_neg this
  · simp only [asciiUpper, if_neg h]

theorem pyIsSpace_asciiUpper (c : Char) : pyIsSpace (asciiUpper c) = pyIsSpace c := by
  by_cases h : 97 ≤ c.toNat ∧ c.toNat ≤ 122
  · have ht := toNat_asciiUpper_lower h
    simp only [pyIsSpace, decide_eq_decide]
    omega
  · simp only [asciiUpper, if_neg h]

/-! The sum over `zip` equals the index-based sum the specification writes. -/

theorem zipWith_sum_eq_range :
    ∀ (p : Chars) (w : List Nat),
      (List.zipWith (fun c k => digitVal c * k) p w).sum =
      ((List.range (min p.length w.length)).map
        (fun i => digitVal (p.getD i ' ') * w.getD i 0)).sum := by
  intro p
  induction p with
  | nil => intro w; simp
  | cons c p ih =>
    intro w
    cases w with
    | nil => simp
    | cons k w =>
      simp only [List.zipWith_cons_cons, List.sum_cons, List.length_cons]
      rw [ih w]
      have hmin : min (p.length + 1) (w.length + 1) = min p.length w.length + 1 := by
        omega
      rw [hmin, List.range_succ_eq_map]
      simp only [List.map_cons, List.sum_cons, List.map_map, List.getD_cons_zero]
      have hfun : ((fun i => digitVal ((c :: p).getD i ' ') * (k :: w).getD i 0) ∘ Nat.succ)
          = (fun i => digitVal (p.getD i ' ') * w.getD i 0) := by
        funext i
        simp [Function.comp, List.getD_cons_succ]
      rw [hfun]

/-- C1: the check character is the weighted mod-11 table lookup; the canonical
prefix `11010519491231002` yields `'X'`.  The first conjunct relates the
implementation (a sum over `zip`) to the index-by-index formula of the claim. -/
theorem checksum_matches_formula :
    (∀ p : Chars, p.length = 17 → p.all isAsciiDigit = true →
      calculateChecksum p =
        some (CHECKSUM_MAP.getD
          ((((List.range 17).map (fun i => digitVal (p.getD i ' ') * WEIGHTS.getD i 0)).sum) % 11) '?'))
    ∧ calculateChecksum "11010519491231002".toList = some 'X' := by
  constructor
  · intro p hlen hdig
    have hne : p.isEmpty = false := by
      cases p with
      | nil => simp at hlen
      | cons a t => rfl
    have hd : pyIsdigit p = true := by
      simp [pyIsdigit, hne, hdig]
    have h17 : min p.length WEIGHTS.length = 17 := by rw [hlen]; rfl
    simp only [calculateChecksum, if_pos (And.intro hlen hd), checksumOf, weightedSum]
    rw [zipWith_sum_eq_range p WEIGHTS, h17]
  · rfl

/-- Witness for C1 at the canonical 17-digit prefix. -/
theorem checksum_matches_formula_witness :
    calculateChecksum "11010519491231002".toList =
      some (CHECKSUM_MAP.getD
        ((((List.range 17).map
            (fun i => digitVal (("11010519491231002".toList).getD i ' ') * WEIGHTS.getD i 0)).sum) % 11) '?') :=
  checksum_matches_formula.1 "11010519491231002".toList (by rfl) (by rfl)

/-! Normalization lemmas: `strip` and `upper` commute with each other and
leave an already normalized string unchanged, so running `validate` on its
own normalization changes nothing. -/

theorem dropWhileSpace_le (l : Chars) :
    (l.dropWhile pyIsSpace).length ≤ l.length := by
  induction l with
  | nil => simp
  | cons a t ih =>
    by_cases ha : pyIsSpace a = true
    · rw [List.dropWhile_cons_of_pos ha]; simp; omega
    · rw [List.dropWhile_cons_of_neg (by simp [ha])]

theorem dropWhileSpace_idem (l : Chars) :
    List.dropWhile pyIsSpace (l.dropWhile pyIsSpace) = l.dropWhile pyIsSpace := by
  induction l with
  | nil => rfl
  | cons a t ih =>
    by_cases ha : pyIsSpace a = true
    · rw [List.dropWhile_cons_of_pos ha]; exact ih
    · rw [List.dropWhile_cons_of_neg (by simp [ha]),
          List.dropWhile_cons_of_neg (by simp [ha])]

theorem head_not_space_of_dropWhile_eq_self {a : Char} {t : Chars}
    (h : List.dropWhile pyIsSpace (a :: t) = a :: t) : pyIsSpace a = false := by
  by_cases hp : pyIsSpace a = true
  · rw [List.dropWhile_cons_of_pos hp] at h
    have h1 := dropWhileSpace_le t
    have h2 := congrArg List.length h
    simp at h2
    omega
  · simpa using hp

theorem dropWhile_eq_self_of_head {a : Char} {t : Chars}
    (h : pyIsSpace a = false) : List.dropWhile pyIsSpace (a :: t) = a :: t :=
  List.dropWhile_cons_of_neg (by simp [h])

/-- Stripping trailing whitespace commutes with a non-whitespace head. -/
theorem stripTail_cons {c : Char} (t : Chars) (h : pyIsSpace c = false) :
    ((c :: t).reverse.dropWhile pyIsSpace).reverse
      = c :: (t.reverse.dropWhile pyIsSpace).reverse := by
  simp only [List.reverse_cons]
  rw [List.dropWhile_append]
  by_cases he : (t.reverse.dropWhile pyIsSpace).isEmpty = true
  · rw [if_pos he, List.dropWhile_cons_of_neg (by simp [h])]
    have ht : t.reverse.dropWhile pyIsSpace = [] := by
      simpa [List.isEmpty_iff] using he
    simp [ht]
  · rw [if_neg he]
    simp

theorem dropWhile_pyStrip (s : Chars) :
    (pyStrip s).dropWhile pyIsSpace = pyStrip s := by
  unfold pyStrip
  generalize hx : s.dropWhile pyIsSpace = x
  have hxx : List.dropWhile pyIsSpace x = x := by
    rw [← hx]; exact dropWhileSpace_idem s
  cases x with
  | nil => rfl
  | cons a t =>
    have ha : pyIsSpace a = false := head_not_space_of_dropWhile_eq_self hxx
    rw [stripTail_cons t ha]
    exact dropWhile_eq_self_of_head ha

theorem reverse_pyStrip_dropWhile (s : Chars) :
    (pyStrip s).reverse.dropWhile pyIsSpace = (pyStrip s).reverse := by
  unfold pyStrip
  simp only [List.reverse_reverse]
  exact dropWhileSpace_idem _

/-- A string with no leading and no trailing whitespace is a fixed point
of `pyStrip`. -/
theorem pyStrip_fix {t : Chars}
    (h1 : t.dropWhile pyIsSpace = t)
    (h2 : t.reverse.dropWhile pyIsSpace = t.reverse) : pyStrip t = t := by
  unfold pyStrip
  rw [h1, h2, List.reverse_reverse]

theorem pyStrip_pyStrip (s : Chars) : pyStrip (pyStrip s) = pyStrip s :=
  pyStrip_fix (dropWhile_pyStrip s) (reverse_pyStrip_dropWhile s)

/-- Mapping `upper` preserves the property of having no leading whitespace. -/
theorem dropWhile_map_upper {t : Chars} (h : t.dropWhile pyIsSpace = t) :
    (t.map asciiUpper).dropWhile pyIsSpace = t.map asciiUpper := by
  cases t with
  | nil => rfl
  | cons a u =>
    have ha : pyIsSpace a = false := head_not_space_of_dropWhile_eq_self h
    simp only [List.map_cons]
    exact dropWhile_eq_self_of_head (by rw [pyIsSpace_asciiUpper]; exact ha)

theorem pyStrip_pyUpper_pyStrip (s : Chars) :
    pyStrip (pyUpper (pyStrip s)) = pyUpper (pyStrip s) := by
  apply pyStrip_fix
  · exact dropWhile_map_upper (dropWhile_pyStrip s)
  · show ((pyStrip s).map asciiUpper).reverse.dropWhile pyIsSpace = _
    rw [← List.map_reverse]
    rw [dropWhile_map_upper (reverse_pyStrip_dropWhile s), List.map_reverse]
    rfl

theorem pyUpper_pyUpper (s : Chars) : pyUpper (pyUpper s) = pyUpper s := by
  unfold pyUpper
  rw [List.map_map]
  apply List.map_congr_left
  intro a _
  exact asciiUpper_idem a

/-- The normalization performed on the first line of `validate` is
idempotent. -/
theorem pyNormalize_idem (s : Chars) :
    pyUpper (pyStrip (pyUpper (pyStrip s))) = pyUpper (pyStrip s) := by
  rw [pyStrip_pyUpper_pyStrip, pyUpper_pyUpper]

/-- C9: `validate` first strips surrounding whitespace and uppercases, so
validating any string is the same as validating its stripped-and-uppercased
form; concretely, a valid id surrounded by whitespace and ending in a
lowercase x is accepted. -/
theorem validate_normalizes :
    (∀ (A : AreaTable) (T : Ymd) (s : Chars),
      validate A T s = validate A T (pyUpper (pyStrip s)))
    ∧ validate [("110105".toList, [])] (2026, 10, 12) "  11010519491231002x ".toList = .valid := by
  constructor
  · intro A T s
    unfold validate
    rw [pyNormalize_idem]
  · rfl

/-- C7: `validate` itself returns its verdict as data (`"123"` gets the
length reason, no fault), but `parse` can raise: on a whitespace-padded
valid id, `validate` accepts the stripped string while `parse` slices the
raw one, and `strptime` on the misaligned characters raises an uncaught
`ValueError`. -/
theorem parse_raises_on_padded_input :
    validate [("110105".toList, [])] (2026, 10, 12) "123".toList = .lengthError
    ∧ parseId [("110105".toList, [])] (2026, 10, 12) " 11010519491231002X".toList
        = .error .valueError :=
  And.intro rfl rfl

theorem digitChar_isDigit {n : Nat} (h : n < 10) :
    isAsciiDigit (Nat.digitChar n) = true := by
  interval_cases n <;> rfl

theorem digitVal_digitChar {n : Nat} (h : n < 10) :
    digitVal (Nat.digitChar n) = n := by
  interval_cases n <;> rfl

theorem pad3_length {i : Nat} (h : i < 1000) : (pad3 i).length = 3 := by
  rw [pad3, if_pos h]
  rfl

theorem pad3_digits {i : Nat} (h : i < 1000) : (pad3 i).all isAsciiDigit = true := by
  rw [pad3, if_pos h]
  have h1 : i / 100 < 10 := by omega
  have h2 : i / 10 % 10 < 10 := by omega
  have h3 : i % 10 < 10 := by omega
  simp [digitChar_isDigit h1, digitChar_isDigit h2, digitChar_isDigit h3]

theorem natVal_pad3 {i : Nat} (h : i < 1000) : natVal (pad3 i) = i := by
  rw [pad3, if_pos h]
  have h1 : i / 100 < 10 := by omega
  have h2 : i / 10 % 10 < 10 := by omega
  have h3 : i % 10 < 10 := by omega
  simp only [natVal, List.foldl_cons, List.foldl_nil,
    digitVal_digitChar h1, digitVal_digitChar h2, digitVal_digitChar h3]
  omega

theorem checksumOf_char_facts (p : Chars) :
    (isAsciiDigit (checksumOf p) = true ∨ checksumOf p = 'X')
    ∧ pyIsSpace (checksumOf p) = false
    ∧ asciiUpper (checksumOf p) = checksumOf p := by
  unfold checksumOf
  generalize hg : weightedSum p % 11 = r
  have h0 : r < 11 := hg ▸ Nat.mod_lt _ (by omega)
  interval_cases r <;> exact ⟨by decide, by decide, by decide⟩

theorem pyUpper_fix {l : Chars} (h : ∀ c ∈ l, asciiUpper c = c) : pyUpper l = l := by
  have h2 : l.map asciiUpper = l.map id := List.map_congr_left (by simpa using h)
  simpa [pyUpper] using h2

/-- Normalization leaves a nonempty all-digit string followed by a
checksum-table character unchanged. -/
theorem pyNormalize_fix_digits_append {p : Chars} {c : Char}
    (hp : p.all isAsciiDigit = true) (hne : p ≠ [])
    (hcs : pyIsSpace c = false) (hcu : asciiUpper c = c) :
    pyUpper (pyStrip (p ++ [c])) = p ++ [c] := by
  have hstrip : pyStrip (p ++ [c]) = p ++ [c] := by
    apply pyStrip_fix
    · cases p with
      | nil => exact absurd rfl hne
      | cons a t =>
        have ha : isAsciiDigit a = true := List.all_eq_true.mp hp a (by simp)
        exact dropWhile_eq_self_of_head (pyIsSpace_false_of_digit ha)
    · have hrev : (p ++ [c]).reverse = c :: p.reverse := by simp
      rw [hrev]
      exact dropWhile_eq_self_of_head hcs
  rw [hstrip]
  apply pyUpper_fix
  intro x hx
  rcases List.mem_append.mp hx with hx1 | hx2
  · exact asciiUpper_digit (List.all_eq_true.mp hp x hx1)
  · have hxc : x = c := by simpa using hx2
    rw [hxc]
    exact hcu

/-- Core round-trip fact: a 17-digit prefix with a known region code and a
real, non-future birth date validates once its check character is
appended. -/
theorem validate_appended_checksum (A : AreaTable) (T : Ymd) (p : Chars) (b : Ymd)
    (h17 : p.length = 17) (hd : p.all isAsciiDigit = true)
    (ha : hasCode A (p.take 6) = true)
    (hb : strptimeYmd ((p.drop 6).take 8) = some b)
    (hf : dateAfter b T = false) :
    validate A T (p ++ [checksumOf p]) = .valid := by
  have hcf := checksumOf_char_facts p
  have hne : p ≠ [] := by
    intro h
    rw [h] at h17
    simp at h17
  have hpd : pyIsdigit p = true := by
    cases p with
    | nil => exact absurd rfl hne
    | cons a t => simp [pyIsdigit, hd]
  unfold validate
  rw [pyNormalize_fix_digits_append hd hne hcf.2.1 hcf.2.2]
  unfold validateCore
  have hlen : (p ++ [checksumOf p]).length = 18 := by simp [h17]
  have htake : (p ++ [checksumOf p]).take 17 = p := List.take_left' h17
  have hdrop : (p ++ [checksumOf p]).drop 17 = [checksumOf p] := List.drop_left' h17
  have htake6 : (p ++ [checksumOf p]).take 6 = p.take 6 :=
    List.take_append_of_le_length (by omega)
  have hdate8 : ((p ++ [checksumOf p]).drop 6).take 8 = (p.drop 6).take 8 := by
    rw [List.drop_append_of_le_length (by omega)]
    exact List.take_append_of_le_length (by rw [List.length_drop, h17]; omega)
  rw [htake, hdrop, htake6, hdate8]
  rcases hcf.1 with hx | hx
  · simp [hlen, hpd, hx, ha, hb, hf, calculateChecksum, h17]
  · simp [hlen, hpd, hx, ha, hb, hf, calculateChecksum, h17, hpd]

/-- C3: for a 17-digit prefix whose first 6 characters are a table key and
whose characters 6-13 parse as a real, non-future calendar date, the
checksum computation succeeds and appending its result yields an id that
`validate` accepts. -/
theorem checksum_roundtrip (A : AreaTable) (T : Ymd) (p : Chars) (b : Ymd)
    (h17 : p.length = 17) (hd : p.all isAsciiDigit = true)
    (ha : hasCode A (p.take 6) = true)
    (hb : strptimeYmd ((p.drop 6).take 8) = some b)
    (hf : dateAfter b T = false) :
    calculateChecksum p = some (checksumOf p)
    ∧ validate A T (p ++ [checksumOf p]) = .valid := by
  constructor
  · rw [calculateChecksum, if_pos]
    constructor
    · exact h17
    · cases p with
      | nil => simp at h17
      | cons a t => simp [pyIsdigit, hd]
  · exact validate_appended_checksum A T p b h17 hd ha hb hf

/-- Witness for C3 at the canonical prefix. -/
theorem checksum_roundtrip_witness :
    calculateChecksum "11010519491231002".toList
        = some (checksumOf "11010519491231002".toList)
    ∧ validate demoTable demoToday
        ("11010519491231002".toList ++ [checksumOf "11010519491231002".toList]) = .valid :=
  checksum_roundtrip demoTable demoToday "11010519491231002".toList (1949, 12, 31)
    rfl rfl rfl rfl rfl

theorem guess_mapM (base : Chars) (hb14 : base.length = 14)
    (hbd : base.all isAsciiDigit = true) :
    ∀ l : List Nat, (∀ i ∈ l, i < 1000) →
      l.mapM (fun i => (calculateChecksum (base ++ pad3 i)).map
          (fun ck => base ++ pad3 i ++ [ck]))
        = some (l.map (fun i => base ++ pad3 i ++ [checksumOf (base ++ pad3 i)])) := by
  intro l
  induction l with
  | nil => intro _; rfl
  | cons i t ih =>
    intro hmem
    have hi : i < 1000 := hmem i (by simp)
    have hcs : calculateChecksum (base ++ pad3 i) = some (checksumOf (base ++ pad3 i)) := by
      rw [calculateChecksum, if_pos]
      constructor
      · rw [List.length_append, hb14, pad3_length hi]
      · have hall : (base ++ pad3 i).all isAsciiDigit = true := by
          rw [List.all_append]
          simp [hbd, pad3_digits hi]
        cases hbase : base with
        | nil => rw [hbase] at hb14; simp at hb14
        | cons a u =>
          rw [hbase] at hall
          simp only [pyIsdigit, Bool.and_eq_true, Bool.not_eq_true']
          exact ⟨rfl, hall⟩
    rw [List.mapM_cons, hcs, ih (fun j hj => hmem j (by simp [hj]))]
    rfl

theorem guess_ok_M (A : AreaTable) (code date : Chars) (b : Ymd)
    (hc : hasCode A code = true)
    (h6 : code.length = 6) (hcd : code.all isAsciiDigit = true)
    (h8 : date.length = 8) (hdd : date.all isAsciiDigit = true)
    (hdate : strptimeYmd date = some b) :
    guess A code date ['M'] = .ok (.ok ((List.range' 1 500 2).map
      (fun i => code ++ date ++ pad3 i ++ [checksumOf (code ++ date ++ pad3 i)]))) := by
  have hbase_len : (code ++ date).length = 14 := by
    rw [List.length_append, h6, h8]
  have hbase_dig : (code ++ date).all isAsciiDigit = true := by
    rw [List.all_append]
    simp [hcd, hdd]
  have hmem : ∀ i ∈ List.range' 1 500 2, i < 1000 := by
    intro i hi
    rcases List.mem_range'.mp hi with ⟨k, hk, rfl⟩
    omega
  have hM : pyUpper ['M'] = ['M'] := rfl
  unfold guess
  rw [if_neg (not_not_intro hc), hdate,
      if_neg (by simp), if_neg (not_not_intro (Or.inl hM)), hM,
      if_pos rfl]
  have hrange : pyRange 1 1000 2 = List.range' 1 500 2 := rfl
  rw [hrange, guess_mapM (code ++ date) hbase_len hbase_dig _ hmem]

theorem guess_ok_F (A : AreaTable) (code date : Chars) (b : Ymd)
    (hc : hasCode A code = true)
    (h6 : code.length = 6) (hcd : code.all isAsciiDigit = true)
    (h8 : date.length = 8) (hdd : date.all isAsciiDigit = true)
    (hdate : strptimeYmd date = some b) :
    guess A code date ['F'] = .ok (.ok ((List.range' 2 499 2).map
      (fun i => code ++ date ++ pad3 i ++ [checksumOf (code ++ date ++ pad3 i)]))) := by
  have hbase_len : (code ++ date).length = 14 := by
    rw [List.length_append, h6, h8]
  have hbase_dig : (code ++ date).all isAsciiDigit = true := by
    rw [List.all_append]
    simp [hcd, hdd]
  have hmem : ∀ i ∈ List.range' 2 499 2, i < 1000 := by
    intro i hi
    rcases List.mem_range'.mp hi with ⟨k, hk, rfl⟩
    omega
  have hF : pyUpper ['F'] = ['F'] := rfl
  unfold guess
  rw [if_neg (not_not_intro hc), hdate,
      if_neg (by simp), if_neg (not_not_intro (Or.inr hF)), hF,
      if_neg (by decide)]
  have hrange : pyRange 2 1000 2 = List.range' 2 499 2 := rfl
  rw [hrange, guess_mapM (code ++ date) hbase_len hbase_dig _ hmem]

theorem pad3_eq {i : Nat} (h : i < 1000) :
    pad3 i = [Nat.digitChar (i / 100), Nat.digitChar (i / 10 % 10), Nat.digitChar (i % 10)] := by
  rw [pad3, if_pos h]

theorem generated_length {code date : Chars} {i : Nat}
    (h6 : code.length = 6) (h8 : date.length = 8) (hi : i < 1000) :
    (code ++ date ++ pad3 i).length = 17 := by
  rw [List.length_append, List.length_append, h6, h8, pad3_length hi]

theorem generated_digits {code date : Chars} {i : Nat}
    (hcd : code.all isAsciiDigit = true) (hdd : date.all isAsciiDigit = true)
    (hi : i < 1000) :
    (code ++ date ++ pad3 i).all isAsciiDigit = true := by
  rw [List.all_append, List.all_append]
  simp [hcd, hdd, pad3_digits hi]

theorem take6_generated {code r : Chars} (h6 : code.length = 6) :
    (code ++ r).take 6 = code := List.take_left' h6

theorem date8_generated {code date r : Chars} (h6 : code.length = 6) (h8 : date.length = 8) :
    ((code ++ date ++ r).drop 6).take 8 = date := by
  rw [List.drop_append_of_le_length (by rw [List.length_append]; omega),
      List.drop_left' h6, List.take_left' h8]

theorem seqDigits_generated {code date : Chars} {i : Nat}
    (h6 : code.length = 6) (h8 : date.length = 8) (hi : i < 1000) (ck : Char) :
    ((code ++ date ++ pad3 i ++ [ck]).drop 14).take 3 = pad3 i := by
  have h14 : (code ++ date).length = 14 := by rw [List.length_append, h6, h8]
  rw [List.drop_append_of_le_length
        (by rw [List.length_append, h14, pad3_length hi]; omega),
      List.drop_left' h14, List.take_left' (pad3_length hi)]

theorem date8_full {code date : Chars} {i : Nat} (h6 : code.length = 6)
    (h8 : date.length = 8) (hi : i < 1000) (ck : Char) :
    ((code ++ date ++ pad3 i ++ [ck]).drop 6).take 8 = date := by
  rw [List.drop_append_of_le_length
        (by rw [generated_length h6 h8 hi]; omega),
      List.take_append_of_le_length
        (by rw [List.length_drop, generated_length h6 h8 hi]; omega)]
  exact date8_generated h6 h8

theorem drop16_generated {code date : Chars} {i : Nat} (h6 : code.length = 6)
    (h8 : date.length = 8) (hi : i < 1000) (ck : Char) :
    ((code ++ date ++ pad3 i ++ [ck]).drop 16).take 1 = [Nat.digitChar (i % 10)] := by
  have h14 : (code ++ date).length = 14 := by rw [List.length_append, h6, h8]
  rw [List.drop_append_of_le_length
        (by rw [generated_length h6 h8 hi]; omega)]
  have h16 : (16 : Nat) = (code ++ date).length + 2 := by rw [h14]
  rw [h16, List.drop_append, pad3_eq hi]
  simp

theorem pyStrip_digits {l : Chars} (hne : l ≠ []) (hd : l.all isAsciiDigit = true) :
    pyStrip l = l := by
  apply pyStrip_fix
  · cases l with
    | nil => exact absurd rfl hne
    | cons a t =>
      exact dropWhile_eq_self_of_head
        (pyIsSpace_false_of_digit (List.all_eq_true.mp hd a (by simp)))
  · cases hrev : l.reverse with
    | nil => simp
    | cons a t =>
      have ha : a ∈ l := by
        have hm : a ∈ l.reverse := by rw [hrev]; simp
        simpa using hm
      exact dropWhile_eq_self_of_head
        (pyIsSpace_false_of_digit (List.all_eq_true.mp hd a ha))

theorem pyIntNat_digits {l : Chars} (hne : l ≠ []) (hd : l.all isAsciiDigit = true) :
    pyIntNat l = some (natVal l) := by
  have hpd : pyIsdigit l = true := by
    cases l with
    | nil => exact absurd rfl hne
    | cons a t => simp [pyIsdigit, hd]
  simp only [pyIntNat, pyStrip_digits hne hd, hpd, if_true]

/-- C4 (amended): for a 6-digit region code present in the table and an
8-digit string parsing as a real calendar date, `guess` yields exactly 500
candidates for sex M (sequence codes 1,3,...,999) and 499 for sex F
(sequence codes 2,4,...,998), strictly ascending with no duplicates.  The
table also holds province- and city-level keys of 2 and 4 digits, for
which `guess` instead raises (see the counterexample). -/
theorem guess_candidate_counts (A : AreaTable) (code date : Chars) (b : Ymd)
    (hc : hasCode A code = true)
    (h6 : code.length = 6) (hcd : code.all isAsciiDigit = true)
    (h8 : date.length = 8) (hdd : date.all isAsciiDigit = true)
    (hdate : strptimeYmd date = some b) :
    ∃ idsM idsF,
      guess A code date ['M'] = .ok (.ok idsM)
      ∧ guess A code date ['F'] = .ok (.ok idsF)
      ∧ idsM.length = 500 ∧ idsF.length = 499
      ∧ idsM.map (fun s => natVal (seqDigits s)) = List.range' 1 500 2
      ∧ idsF.map (fun s => natVal (seqDigits s)) = List.range' 2 499 2
      ∧ List.Pairwise (· < ·) (idsM.map (fun s => natVal (seqDigits s)))
      ∧ List.Pairwise (· < ·) (idsF.map (fun s => natVal (seqDigits s)))
      ∧ idsM.Nodup ∧ idsF.Nodup
      ∧ (∀ v ∈ idsM.map (fun s => natVal (seqDigits s)), v % 2 = 1)
      ∧ (∀ v ∈ idsF.map (fun s => natVal (seqDigits s)), v % 2 = 0) := by
  have hseq : ∀ s n, (∀ i ∈ List.range' s n 2, i < 1000) →
      ((List.range' s n 2).map
        (fun i => code ++ date ++ pad3 i ++ [checksumOf (code ++ date ++ pad3 i)])).map
          (fun t => natVal (seqDigits t)) = List.range' s n 2 := by
    intro s n hbound
    rw [List.map_map]
    have hcong : ∀ i ∈ List.range' s n 2,
        ((fun t => natVal (seqDigits t)) ∘
          (fun i => code ++ date ++ pad3 i ++ [checksumOf (code ++ date ++ pad3 i)])) i
        = id i := by
      intro i hi
      have hilt := hbound i hi
      simp only [Function.comp, seqDigits, id]
      rw [seqDigits_generated h6 h8 hilt, natVal_pad3 hilt]
    rw [List.map_congr_left hcong, List.map_id]
  have hbM : ∀ i ∈ List.range' 1 500 2, i < 1000 := by
    intro i hi
    rcases List.mem_range'.mp hi with ⟨k, hk, rfl⟩
    omega
  have hbF : ∀ i ∈ List.range' 2 499 2, i < 1000 := by
    intro i hi
    rcases List.mem_range'.mp hi with ⟨k, hk, rfl⟩
    omega
  have hmapM := hseq 1 500 hbM
  have hmapF := hseq 2 499 hbF
  have hpwM : List.Pairwise (· < ·) (List.range' 1 500 2) :=
    List.pairwise_lt_range' 1 500 2 (by omega)
  have hpwF : List.Pairwise (· < ·) (List.range' 2 499 2) :=
    List.pairwise_lt_range' 2 499 2 (by omega)
  refine ⟨_, _, guess_ok_M A code date b hc h6 hcd h8 hdd hdate,
      guess_ok_F A code date b hc h6 hcd h8 hdd hdate,
      by simp, by simp, hmapM, hmapF, ?_, ?_, ?_, ?_, ?_, ?_⟩
  · rw [hmapM]; exact hpwM
  · rw [hmapF]; exact hpwF
  · have h1 : (((List.range' 1 500 2).map
        (fun i => code ++ date ++ pad3 i ++ [checksumOf (code ++ date ++ pad3 i)])).map
          (fun t => natVal (seqDigits t))).Nodup := by
      rw [hmapM]
      exact hpwM.nodup
    exact h1.of_map _
  · have h1 : (((List.range' 2 499 2).map
        (fun i => code ++ date ++ pad3 i ++ [checksumOf (code ++ date ++ pad3 i)])).map
          (fun t => natVal (seqDigits t))).Nodup := by
      rw [hmapF]
      exact hpwF.nodup
    exact h1.of_map _
  · intro v hv
    rw [hmapM] at hv
    rcases List.mem_range'.mp hv with ⟨k, hk, rfl⟩
    omega
  · intro v hv
    rw [hmapF] at hv
    rcases List.mem_range'.mp hv with ⟨k, hk, rfl⟩
    omega

/-- Witness for C4 at a concrete region code and birth date. -/
theorem guess_candidate_counts_witness :
    ∃ idsM idsF,
      guess demoTable "110105".toList "19491231".toList ['M'] = .ok (.ok idsM)
      ∧ guess demoTable "110105".toList "19491231".toList ['F'] = .ok (.ok idsF)
      ∧ idsM.length = 500 ∧ idsF.length = 499
      ∧ idsM.map (fun s => natVal (seqDigits s)) = List.range' 1 500 2
      ∧ idsF.map (fun s => natVal (seqDigits s)) = List.range' 2 499 2
      ∧ List.Pairwise (· < ·) (idsM.map (fun s => natVal (seqDigits s)))
      ∧ List.Pairwise (· < ·) (idsF.map (fun s => natVal (seqDigits s)))
      ∧ idsM.Nodup ∧ idsF.Nodup
      ∧ (∀ v ∈ idsM.map (fun s => natVal (seqDigits s)), v % 2 = 1)
      ∧ (∀ v ∈ idsF.map (fun s => natVal (seqDigits s)), v % 2 = 0) :=
  guess_candidate_counts demoTable "110105".toList "19491231".toList (1949, 12, 31)
    rfl rfl rfl rfl rfl rfl

theorem generated_id_behavior (A : AreaTable) (T : Ymd) (code date : Chars) (b : Ymd)
    (i : Nat) (h6 : code.length = 6) (hcd : code.all isAsciiDigit = true)
    (h8 : date.length = 8) (hdd : date.all isAsciiDigit = true)
    (hdate : strptimeYmd date = some b) (hfut : dateAfter b T = false)
    (hc : hasCode A code = true) (hi : i < 1000) :
    validate A T (code ++ date ++ pad3 i ++ [checksumOf (code ++ date ++ pad3 i)]) = .valid
    ∧ ∃ P : ParsedIdentity,
        parseId A T (code ++ date ++ pad3 i ++ [checksumOf (code ++ date ++ pad3 i)])
          = .ok (.parsed P)
        ∧ P.gender_male = decide (i % 2 ≠ 0)
        ∧ P.birth_date = b := by
  have h17 := generated_length h6 h8 hi
  have hdig := generated_digits hcd hdd hi
  have hva : validate A T
      (code ++ date ++ pad3 i ++ [checksumOf (code ++ date ++ pad3 i)]) = .valid := by
    apply validate_appended_checksum A T (code ++ date ++ pad3 i) b h17 hdig
    · rw [List.append_assoc, take6_generated h6]
      exact hc
    · rw [date8_generated h6 h8]
      exact hdate
    · exact hfut
  refine ⟨hva, ?_⟩
  have hok : (validate A T
      (code ++ date ++ pad3 i ++ [checksumOf (code ++ date ++ pad3 i)])).ok = true := by
    rw [hva]
    rfl
  have hint1 : pyIntNat (pad3 i) = some (natVal (pad3 i)) :=
    pyIntNat_digits (by rw [pad3_eq hi]; simp) (pad3_digits hi)
  have hint2 : pyIntNat [Nat.digitChar (i % 10)] = some (natVal [Nat.digitChar (i % 10)]) :=
    pyIntNat_digits (by simp) (by simp [digitChar_isDigit (show i % 10 < 10 by omega)])
  unfold parseId
  simp only [hok, not_true, if_false, date8_full h6 h8 hi, hdate,
    seqDigits_generated h6 h8 hi, drop16_generated h6 h8 hi, hint1, hint2]
  refine ⟨_, rfl, ?_, rfl⟩
  have hv : natVal [Nat.digitChar (i % 10)] = i % 10 := by
    simp [natVal, digitVal_digitChar (show i % 10 < 10 by omega)]
  rw [hv, decide_eq_decide]
  omega

theorem calculateChecksum_some_inv {p : Chars} {c : Char}
    (h : calculateChecksum p = some c) :
    p.length = 17 ∧ pyIsdigit p = true := by
  unfold calculateChecksum at h
  by_cases hcond : p.length = 17 ∧ pyIsdigit p = true
  · exact hcond
  · rw [if_neg hcond] at h
    cases h

theorem mapM_cons_isSome {α β : Type} (f : α → Option β) (a : α) (l : List α)
    {r : List β} (h : (a :: l).mapM f = some r) : (f a).isSome = true := by
  rw [List.mapM_cons] at h
  cases hf : f a with
  | none =>
    rw [hf] at h
    simp at h
  | some b => simp [hf]

theorem mapM_cons_checksum_inv {code date : Chars} {i0 : Nat} {rest : List Nat}
    {l : List Chars} (h8 : date.length = 8) (hi : i0 < 1000)
    (hm : (i0 :: rest).mapM (fun i => (calculateChecksum (code ++ date ++ pad3 i)).map
        (fun ck => code ++ date ++ pad3 i ++ [ck])) = some l) :
    code.length = 6 ∧ code.all isAsciiDigit = true := by
  have hsome : ((calculateChecksum (code ++ date ++ pad3 i0)).map
      (fun ck => code ++ date ++ pad3 i0 ++ [ck])).isSome = true :=
    mapM_cons_isSome _ i0 rest hm
  have hsome2 : (calculateChecksum (code ++ date ++ pad3 i0)).isSome = true := by
    cases hcs : calculateChecksum (code ++ date ++ pad3 i0) with
    | none =>
      rw [hcs] at hsome
      simp at hsome
    | some c => rfl
  obtain ⟨ck, hcc⟩ := Option.isSome_iff_exists.mp hsome2
  have hfacts := calculateChecksum_some_inv hcc
  constructor
  · have hlen := hfacts.1
    rw [List.length_append, List.length_append, h8, pad3_length hi] at hlen
    omega
  · have hdig := hfacts.2
    unfold pyIsdigit at hdig
    simp only [Bool.and_eq_true] at hdig
    have hall := hdig.2
    rw [List.all_append, List.all_append] at hall
    simp only [Bool.and_eq_true] at hall
    exact hall.1.1

/-- A successful `guess` call forces its region code to be a 6-digit digit
string: the first candidate's 17-character checksum computation succeeded. -/
theorem guess_ok_elim {A : AreaTable} {code date g : Chars} {ids : List Chars}
    (h8 : date.length = 8)
    (hids : guess A code date g = .ok (.ok ids)) :
    code.length = 6 ∧ code.all isAsciiDigit = true := by
  unfold guess at hids
  by_cases h1 : ¬ hasCode A code = true
  · rw [if_pos h1] at hids
    exact absurd hids (by simp)
  rw [if_neg h1] at hids
  by_cases h2 : (strptimeYmd date).isNone = true
  · rw [if_pos h2] at hids
    exact absurd hids (by simp)
  rw [if_neg h2] at hids
  by_cases h3 : ¬ (pyUpper g = ['M'] ∨ pyUpper g = ['F'])
  · rw [if_pos h3] at hids
    exact absurd hids (by simp)
  rw [if_neg h3] at hids
  cases hm : (pyRange (if pyUpper g = ['M'] then 1 else 2) 1000 2).mapM
      (fun i => (calculateChecksum (code ++ date ++ pad3 i)).map
        (fun ck => code ++ date ++ pad3 i ++ [ck])) with
  | none =>
    rw [hm] at hids
    exact absurd hids (by simp)
  | some l =>
    rcases not_not.mp h3 with hM | hF
    · have hr : pyRange (if pyUpper g = ['M'] then 1 else 2) 1000 2
          = 1 :: List.range' 3 499 2 := by
        rw [hM]
        rfl
      rw [hr] at hm
      exact mapM_cons_checksum_inv h8 (by omega) hm
    · have hnM : ¬ pyUpper g = ['M'] := by rw [hF]; decide
      have hr : pyRange (if pyUpper g = ['M'] then 1 else 2) 1000 2
          = 2 :: List.range' 4 498 2 := by
        rw [if_neg hnM]
        rfl
      rw [hr] at hm
      exact mapM_cons_checksum_inv h8 (by omega) hm

/-- C4 counterexample: the program's region table also maps province- and
city-level codes (`parse` looks 2- and 4-digit sub-codes up in the same
table); for a 2-digit key such as `"11"` present in the table, `guess`
does not return candidate ids at all: the 13-character prefix makes
`_calculate_checksum` raise an uncaught `ValueError`. -/
theorem guess_short_code_cex :
    hasCode [("11".toList, [])] "11".toList = true
    ∧ guess [("11".toList, [])] "11".toList "19491231".toList ['M']
        = .error .valueError :=
  And.intro rfl rfl

/-- C5 counterexample: `guess` accepts a future birth date (9999-12-31,
which `strptime` parses), but `validate` rejects every id generated from
it with the future-date reason, so ids returned by a successful `guess`
need not validate. -/
theorem guess_ids_validate_cex :
    guessIds (guess demoTable "110105".toList "99991231".toList ['M']) ≠ []
    ∧ validate demoTable demoToday
        ((guessIds (guess demoTable "110105".toList "99991231".toList ['M'])).headD [])
      = .dateErrorFuture "99991231".toList := by
  have hg := guess_ok_M demoTable "110105".toList "99991231".toList (9999, 12, 31)
    rfl rfl rfl rfl rfl rfl
  constructor
  · rw [hg]
    simp only [guessIds]
    intro hcontra
    have hlen := congrArg List.length hcontra
    simp at hlen
  · rw [hg]
    simp only [guessIds]
    have hr : List.range' 1 500 2 = 1 :: List.range' 3 499 2 := rfl
    rw [hr]
    simp only [List.map_cons, List.headD_cons]
    rfl

/-- C5 (amended): with the additional hypothesis that the requested birth
date is not in the future, every id returned by a successful `guess` call
passes `validate`, and `parse` reports the sex matching the sex argument
and the birth date equal to the date argument. -/
theorem guess_ids_validate_parse (A : AreaTable) (T : Ymd) (code date g : Chars)
    (b : Ymd) (ids : List Chars)
    (hc : hasCode A code = true)
    (h8 : date.length = 8) (hdd : date.all isAsciiDigit = true)
    (hdate : strptimeYmd date = some b) (hfut : dateAfter b T = false)
    (hg : g = ['M'] ∨ g = ['F'])
    (hids : guess A code date g = .ok (.ok ids)) :
    ∀ idn ∈ ids,
      validate A T idn = .valid
      ∧ ∃ P : ParsedIdentity, parseId A T idn = .ok (.parsed P)
          ∧ P.gender_male = decide (g = ['M'])
          ∧ P.birth_date = b := by
  obtain ⟨h6, hcd⟩ := guess_ok_elim h8 hids
  rcases hg with rfl | rfl
  · rw [guess_ok_M A code date b hc h6 hcd h8 hdd hdate] at hids
    simp only [Except.ok.injEq, GuessResult.ok.injEq] at hids
    subst hids
    intro idn hmem
    rcases List.mem_map.mp hmem with ⟨i, hir, rfl⟩
    rcases List.mem_range'.mp hir with ⟨k, hk, rfl⟩
    have hb := generated_id_behavior A T code date b (1 + 2 * k)
      h6 hcd h8 hdd hdate hfut hc (by omega)
    refine ⟨hb.1, ?_⟩
    rcases hb.2 with ⟨P, hP, hPg, hPb⟩
    refine ⟨P, hP, ?_, hPb⟩
    rw [hPg]
    have h1 : (1 + 2 * k) % 2 ≠ 0 := by omega
    simp [h1]
  · rw [guess_ok_F A code date b hc h6 hcd h8 hdd hdate] at hids
    simp only [Except.ok.injEq, GuessResult.ok.injEq] at hids
    subst hids
    intro idn hmem
    rcases List.mem_map.mp hmem with ⟨i, hir, rfl⟩
    rcases List.mem_range'.mp hir with ⟨k, hk, rfl⟩
    have hb := generated_id_behavior A T code date b (2 + 2 * k)
      h6 hcd h8 hdd hdate hfut hc (by omega)
    refine ⟨hb.1, ?_⟩
    rcases hb.2 with ⟨P, hP, hPg, hPb⟩
    refine ⟨P, hP, ?_, hPb⟩
    rw [hPg]
    have h1 : (2 + 2 * k) % 2 = 0 := by omega
    simp [h1]

/-- Witness for the amended C5: the first candidate of a concrete `guess`
call validates and parses as male with the requested birth date. -/
theorem guess_ids_validate_parse_witness :
    validate demoTable demoToday
        ("110105".toList ++ "19491231".toList ++ pad3 1
          ++ [checksumOf ("110105".toList ++ "19491231".toList ++ pad3 1)]) = .valid
    ∧ ∃ P : ParsedIdentity,
        parseId demoTable demoToday
          ("110105".toList ++ "19491231".toList ++ pad3 1
            ++ [checksumOf ("110105".toList ++ "19491231".toList ++ pad3 1)])
          = .ok (.parsed P)
        ∧ P.gender_male = decide ((['M'] : Chars) = ['M'])
        ∧ P.birth_date = (1949, 12, 31) :=
  guess_ids_validate_parse demoTable demoToday "110105".toList "19491231".toList ['M']
    (1949, 12, 31) _ rfl rfl rfl rfl rfl
    (Or.inl rfl)
    (guess_ok_M demoTable "110105".toList "19491231".toList (1949, 12, 31)
      rfl rfl rfl rfl rfl rfl)
    _ (by
      rw [show List.range' 1 500 2 = 1 :: List.range' 3 499 2 from rfl]
      simp)

theorem findBucket_bucketAdd (stats : List ((Chars × Chars) × BucketData))
    (k0 k : Chars × Chars) (v : Nat) :
    findBucket (bucketAdd stats k0 v) k =
      if k0 = k then bucketPut (findBucket stats k) v else findBucket stats k := by
  induction stats with
  | nil =>
    by_cases h : k0 = k <;> simp [bucketAdd, findBucket, h]
  | cons p rest ih =>
    obtain ⟨k1, d⟩ := p
    by_cases h1 : k1 = k0
    · subst h1
      simp only [bucketAdd, if_pos rfl, findBucket]
      by_cases h2 : k1 = k <;> simp [findBucket, h2]
    · simp only [bucketAdd, if_neg h1, findBucket]
      by_cases h2 : k1 = k
      · subst h2
        have hk : ¬ k0 = k1 := fun h => h1 h.symm
        simp [hk]
      · simp only [if_neg h2]
        exact ih

theorem foldlM_eq_foldStats (l : List Chars)
    (h : ∀ s ∈ l, (pyIntNat ((s.drop 14).take 3)).isSome = true) :
    ∀ stats, l.foldlM (fun stats s => (pyIntNat ((s.drop 14).take 3)).map
        (fun seq => bucketAdd stats (keyOf s) seq)) stats
      = some (foldStats l stats) := by
  induction l with
  | nil => intro stats; rfl
  | cons s t ih =>
    intro stats
    have hs := h s (by simp)
    obtain ⟨v, hv⟩ := Option.isSome_iff_exists.mp hs
    have hsv : seqValOf s = v := by
      simp [seqValOf, hv]
    have hred : (s :: t).foldlM (fun stats s => (pyIntNat ((s.drop 14).take 3)).map
          (fun seq => bucketAdd stats (keyOf s) seq)) stats
        = t.foldlM (fun stats s => (pyIntNat ((s.drop 14).take 3)).map
          (fun seq => bucketAdd stats (keyOf s) seq)) (bucketAdd stats (keyOf s) v) := by
      rw [List.foldlM_cons, hv]
      rfl
    rw [hred, ih (fun x hx => h x (by simp [hx]))]
    simp [foldStats, hsv]

theorem findBucket_foldStats (l : List Chars) :
    ∀ stats k,
      findBucket (foldStats l stats) k =
        ⟨(findBucket stats k).male_seqs ++
            (l.filter (fun s => decide (keyOf s = k)
              && decide (seqValOf s % 2 ≠ 0))).map seqValOf,
         (findBucket stats k).female_seqs ++
            (l.filter (fun s => decide (keyOf s = k)
              && decide (seqValOf s % 2 = 0))).map seqValOf⟩ := by
  induction l with
  | nil => intro stats k; simp [foldStats]
  | cons s t ih =>
    intro stats k
    simp only [foldStats, List.foldl_cons]
    rw [show List.foldl (fun st x => bucketAdd st (keyOf x) (seqValOf x))
          (bucketAdd stats (keyOf s) (seqValOf s)) t
        = foldStats t (bucketAdd stats (keyOf s) (seqValOf s)) from rfl]
    rw [ih]
    rw [findBucket_bucketAdd]
    by_cases hk : keyOf s = k
    · rw [if_pos hk]
      by_cases hp : seqValOf s % 2 ≠ 0
      · simp only [bucketPut, if_pos hp]
        simp only [List.filter_cons]
        rw [if_pos (show (decide (keyOf s = k) && decide (seqValOf s % 2 ≠ 0)) = true by
              simp [hk, hp]),
            if_neg (show ¬ (decide (keyOf s = k) && decide (seqValOf s % 2 = 0)) = true by
              simp [hk, hp])]
        simp [List.append_assoc]
      · have hp0 : seqValOf s % 2 = 0 := by omega
        simp only [bucketPut, if_neg hp]
        simp only [List.filter_cons]
        rw [if_neg (show ¬ (decide (keyOf s = k) && decide (seqValOf s % 2 ≠ 0)) = true by
              simp [hk, hp0]),
            if_pos (show (decide (keyOf s = k) && decide (seqValOf s % 2 = 0)) = true by
              simp [hk, hp0])]
        simp [List.append_assoc]
    · rw [if_neg hk]
      simp only [List.filter_cons]
      have hd1 : (decide (keyOf s = k) && decide (seqValOf s % 2 ≠ 0)) = false := by
        simp [hk]
      have hd2 : (decide (keyOf s = k) && decide (seqValOf s % 2 = 0)) = false := by
        simp [hk]
      simp [hd1, hd2, hk]

theorem keys_bucketAdd (stats : List ((Chars × Chars) × BucketData))
    (k0 : Chars × Chars) (v : Nat) :
    (bucketAdd stats k0 v).map Prod.fst =
      if k0 ∈ stats.map Prod.fst then stats.map Prod.fst
      else stats.map Prod.fst ++ [k0] := by
  induction stats with
  | nil => simp [bucketAdd]
  | cons p rest ih =>
    obtain ⟨k1, d⟩ := p
    by_cases h1 : k1 = k0
    · subst h1
      simp [bucketAdd]
    · simp only [bucketAdd, if_neg h1, List.map_cons, ih]
      have hne : ¬ k0 = k1 := fun h => h1 h.symm
      by_cases h2 : k0 ∈ rest.map Prod.fst
      · simp [h2, hne]
      · simp [h2, hne]

theorem keys_monotone {stats : List ((Chars × Chars) × BucketData)}
    {k0 k : Chars × Chars} {v : Nat} (h : k ∈ stats.map Prod.fst) :
    k ∈ (bucketAdd stats k0 v).map Prod.fst := by
  rw [keys_bucketAdd]
  by_cases h0 : k0 ∈ stats.map Prod.fst <;> simp [h0, h]

theorem keys_self_bucketAdd (stats : List ((Chars × Chars) × BucketData))
    (k0 : Chars × Chars) (v : Nat) :
    k0 ∈ (bucketAdd stats k0 v).map Prod.fst := by
  rw [keys_bucketAdd]
  by_cases h0 : k0 ∈ stats.map Prod.fst <;> simp [h0]

theorem keys_foldStats_mono (l : List Chars) :
    ∀ stats (k : Chars × Chars), k ∈ stats.map Prod.fst →
      k ∈ (foldStats l stats).map Prod.fst := by
  induction l with
  | nil => intro stats k h; exact h
  | cons a t ih =>
    intro stats k h
    exact ih _ _ (keys_monotone h)

theorem mem_keys_foldStats (l : List Chars) :
    ∀ stats s, s ∈ l → keyOf s ∈ (foldStats l stats).map Prod.fst := by
  induction l with
  | nil => intro _ s hs; simp at hs
  | cons a t ih =>
    intro stats s hs
    rcases List.mem_cons.mp hs with rfl | hs2
    · exact keys_foldStats_mono t _ _ (keys_self_bucketAdd stats (keyOf s) (seqValOf s))
    · exact ih _ s hs2

theorem nodup_keys_bucketAdd {stats : List ((Chars × Chars) × BucketData)}
    (h : (stats.map Prod.fst).Nodup) (k0 : Chars × Chars) (v : Nat) :
    ((bucketAdd stats k0 v).map Prod.fst).Nodup := by
  rw [keys_bucketAdd]
  by_cases h0 : k0 ∈ stats.map Prod.fst
  · simpa [h0]
  · simp [h0, h, List.nodup_append]

theorem nodup_keys_foldStats (l : List Chars) :
    ∀ stats, (stats.map Prod.fst).Nodup → ((foldStats l stats).map Prod.fst).Nodup := by
  induction l with
  | nil => intro stats h; exact h
  | cons a t ih =>
    intro stats h
    exact ih _ (nodup_keys_bucketAdd h _ _)

theorem findBucket_of_mem :
    ∀ {stats : List ((Chars × Chars) × BucketData)},
      (stats.map Prod.fst).Nodup → ∀ {k d}, (k, d) ∈ stats → findBucket stats k = d := by
  intro stats
  induction stats with
  | nil => intro _ k d hm; simp at hm
  | cons p rest ih =>
    intro hnd k d hm
    obtain ⟨k1, d1⟩ := p
    rcases List.mem_cons.mp hm with heq | hmem
    · have hk : k1 = k := by
        have := congrArg Prod.fst heq
        simpa using this.symm
      have hd : d1 = d := by
        have := congrArg Prod.snd heq
        simpa using this.symm
      simp [findBucket, hk, hd]
    · simp only [findBucket]
      by_cases hkk : k1 = k
      · exfalso
        subst hkk
        have hmk : k1 ∈ rest.map Prod.fst := by
          exact List.mem_map.mpr ⟨(k1, d), hmem, rfl⟩
        simp only [List.map_cons, List.nodup_cons] at hnd
        exact hnd.1 hmk
      · rw [if_neg hkk]
        have hnd2 : (rest.map Prod.fst).Nodup := by
          simp only [List.map_cons, List.nodup_cons] at hnd
          exact hnd.2
        exact ih hnd2 hmem

theorem le_maxD {a : Nat} : ∀ {l : List Nat}, a ∈ l → a ≤ maxD l := by
  intro l
  induction l with
  | nil => intro h; simp at h
  | cons x t ih =>
    intro h
    rcases List.mem_cons.mp h with rfl | h2
    · exact Nat.le_max_left _ _
    · exact Nat.le_trans (ih h2) (Nat.le_max_right _ _)

theorem female_estimate_eq (F : List Nat) :
    (if maxD F > 0 then maxD F / 2 else 0) = (if F ≠ [] then maxD F / 2 else 0) := by
  by_cases hF : F = []
  · subst hF
    simp [maxD]
  · simp only [hF, ne_eq, not_false_iff, if_true]
    rcases Nat.eq_zero_or_pos (maxD F) with h0 | hpos
    · simp [h0]
    · simp [hpos]

theorem male_estimate_eq {M : List Nat} (hodd : ∀ v ∈ M, v % 2 = 1) :
    (if maxD M > 0 then (maxD M + 1) / 2 else 0)
      = (if M ≠ [] then (maxD M + 1) / 2 else 0) := by
  by_cases hM : M = []
  · subst hM
    simp [maxD]
  · obtain ⟨v, hv⟩ := List.exists_mem_of_ne_nil M hM
    have h1 := hodd v hv
    have h2 := le_maxD hv
    have hpos : maxD M > 0 := by omega
    simp [hM, hpos]

theorem mem_reportPut {rep : List (Chars × AnalysisEntry)} {lbl l : Chars}
    {e e' : AnalysisEntry} (h : (l, e') ∈ reportPut rep lbl e) :
    (l = lbl ∧ e' = e) ∨ (l, e') ∈ rep := by
  induction rep with
  | nil =>
    simp only [reportPut, List.mem_singleton, Prod.mk.injEq] at h
    exact Or.inl h
  | cons p rest ih =>
    obtain ⟨l0, e0⟩ := p
    by_cases h0 : l0 = lbl
    · simp only [reportPut, if_pos h0] at h
      rcases List.mem_cons.mp h with heq | hm
      · simp only [Prod.mk.injEq] at heq
        exact Or.inl ⟨heq.1.trans h0, heq.2⟩
      · exact Or.inr (List.mem_cons.mpr (Or.inr hm))
    · simp only [reportPut, if_neg h0] at h
      rcases List.mem_cons.mp h with heq | hm
      · exact Or.inr (List.mem_cons.mpr (Or.inl heq))
      · rcases ih hm with h1 | h2
        · exact Or.inl h1
        · exact Or.inr (List.mem_cons.mpr (Or.inr h2))

theorem mem_buildReport_fold (A : AreaTable) :
    ∀ (stats : List ((Chars × Chars) × BucketData))
      (rep : List (Chars × AnalysisEntry)) (l : Chars) (e : AnalysisEntry),
      (l, e) ∈ stats.foldl
          (fun rep kd => reportPut rep (entryLabel A kd.1) (mkEntry kd)) rep →
      (l, e) ∈ rep ∨ ∃ kd ∈ stats, entryLabel A kd.1 = l ∧ e = mkEntry kd := by
  intro stats
  induction stats with
  | nil => intro rep l e h; exact Or.inl h
  | cons kd0 t ih =>
    intro rep l e h
    simp only [List.foldl_cons] at h
    rcases ih _ l e h with h1 | ⟨kd, hkd, hl, he⟩
    · rcases mem_reportPut h1 with ⟨hl, he⟩ | h2
      · exact Or.inr ⟨kd0, by simp, hl.symm, he⟩
      · exact Or.inl h2
    · exact Or.inr ⟨kd, by simp [hkd], hl, he⟩

theorem labels_reportPut (rep : List (Chars × AnalysisEntry)) (lbl : Chars)
    (e : AnalysisEntry) :
    (reportPut rep lbl e).map Prod.fst =
      if lbl ∈ rep.map Prod.fst then rep.map Prod.fst
      else rep.map Prod.fst ++ [lbl] := by
  induction rep with
  | nil => simp [reportPut]
  | cons p rest ih =>
    obtain ⟨l0, e0⟩ := p
    by_cases h0 : l0 = lbl
    · subst h0
      simp only [reportPut, List.map_cons]
      rw [if_pos trivial, List.map_cons, if_pos (List.mem_cons_self _ _)]
    · simp only [reportPut, if_neg h0, List.map_cons, ih]
      have hne : ¬ lbl = l0 := fun hx => h0 hx.symm
      by_cases h2 : lbl ∈ rest.map Prod.fst
      · simp [h2, hne]
      · simp [h2, hne]

theorem label_self_reportPut (rep : List (Chars × AnalysisEntry)) (lbl : Chars)
    (e : AnalysisEntry) : lbl ∈ (reportPut rep lbl e).map Prod.fst := by
  rw [labels_reportPut]
  by_cases h0 : lbl ∈ rep.map Prod.fst <;> simp [h0]

theorem label_mono_reportPut {rep : List (Chars × AnalysisEntry)} {l : Chars}
    (h : l ∈ rep.map Prod.fst) (lbl : Chars) (e : AnalysisEntry) :
    l ∈ (reportPut rep lbl e).map Prod.fst := by
  rw [labels_reportPut]
  by_cases h0 : lbl ∈ rep.map Prod.fst <;> simp [h0, h]

theorem label_mono_foldReport (A : AreaTable) :
    ∀ (stats : List ((Chars × Chars) × BucketData)) rep (l : Chars),
      l ∈ rep.map Prod.fst →
      l ∈ (stats.foldl
          (fun rep kd => reportPut rep (entryLabel A kd.1) (mkEntry kd)) rep).map Prod.fst := by
  intro stats
  induction stats with
  | nil => intro rep l h; exact h
  | cons kd t ih =>
    intro rep l h
    simp only [List.foldl_cons]
    exact ih _ l (label_mono_reportPut h _ _)

theorem mem_labels_foldReport (A : AreaTable) :
    ∀ (stats : List ((Chars × Chars) × BucketData)) rep kd, kd ∈ stats →
      entryLabel A kd.1 ∈ (stats.foldl
          (fun rep kd => reportPut rep (entryLabel A kd.1) (mkEntry kd)) rep).map Prod.fst := by
  intro stats
  induction stats with
  | nil => intro rep kd h; simp at h
  | cons kd0 t ih =>
    intro rep kd h
    simp only [List.foldl_cons]
    rcases List.mem_cons.mp h with rfl | h2
    · exact label_mono_foldReport A t _ _ (label_self_reportPut _ _ _)
    · exact ih _ kd h2

theorem keys_foldStats_sub (l : List Chars) :
    ∀ stats (k : Chars × Chars), k ∈ (foldStats l stats).map Prod.fst →
      k ∈ stats.map Prod.fst ∨ ∃ s ∈ l, keyOf s = k := by
  induction l with
  | nil => intro stats k h; exact Or.inl h
  | cons a t ih =>
    intro stats k h
    simp only [foldStats, List.foldl_cons] at h
    have h' : k ∈ (foldStats t (bucketAdd stats (keyOf a) (seqValOf a))).map Prod.fst := h
    rcases ih _ k h' with h1 | ⟨s, hs, hk⟩
    · rw [keys_bucketAdd] at h1
      by_cases h0 : keyOf a ∈ stats.map Prod.fst
      · rw [if_pos h0] at h1
        exact Or.inl h1
      · rw [if_neg h0] at h1
        rcases List.mem_append.mp h1 with hm | hm
        · exact Or.inl hm
        · right
          refine ⟨a, by simp, ?_⟩
          exact (List.mem_singleton.mp hm).symm
    · right
      exact ⟨s, by simp [hs], hk⟩

/-- C6 counterexample: an id that `validate` accepts (after stripping its
17 leading blanks) crashes the analyzer: `int` is applied to the raw
characters 14-16, which are all blanks, so no report is produced. -/
theorem analyze_groups_cex :
    (validate demoTable demoToday
        (List.replicate 17 ' ' ++ "11010519491231002X".toList)).ok = true
    ∧ analyze demoTable demoToday
        [List.replicate 17 ' ' ++ "11010519491231002X".toList] = .error .valueError :=
  And.intro rfl rfl

/-- C6 (amended): provided the sequence-value conversion succeeds for
every accepted id (it can fail only for an accepted id with 17 or more
leading whitespace characters), `analyzeSample` returns the report; every
accepted id is grouped into the bucket keyed by its characters 0-5 and
6-13, with sequence values classified male when odd and female when even,
and the report is keyed by the resolved display label (the region name,
or the unknown-region fallback, followed by the date digits in
parentheses): every bucket's label is a key of the report, and each
report entry is exactly the claimed count/estimate record of one of the
buckets bearing its label (buckets sharing a label overwrite each other,
so only one survives). -/
theorem analyze_groups_estimates (A : AreaTable) (T : Ymd) (ids : List Chars)
    (h : ∀ s ∈ ids, (validate A T s).ok = true →
        (pyIntNat ((s.drop 14).take 3)).isSome = true) :
    ∃ r : AnalyzeResult, analyze A T ids = .ok r
      ∧ r.total_records = ids.length
      ∧ r.valid_records = (ids.filter (fun s => (validate A T s).ok)).length
      ∧ r.invalid_records = (ids.filter (fun s => !(validate A T s).ok)).length
      ∧ (∀ s ∈ ids, (validate A T s).ok = true →
          entryLabel A (keyOf s) ∈ r.analysis_report.map Prod.fst)
      ∧ (∀ le ∈ r.analysis_report, ∃ k : Chars × Chars,
          entryLabel A k = le.1
          ∧ (∃ s ∈ ids, (validate A T s).ok = true ∧ keyOf s = k)
          ∧ le.2.sample_count = (parSeqsSpec A T ids k 1).length
              + (parSeqsSpec A T ids k 0).length
          ∧ le.2.estimated_males = (if parSeqsSpec A T ids k 1 ≠ []
              then (maxD (parSeqsSpec A T ids k 1) + 1) / 2 else 0)
          ∧ le.2.estimated_females = (if parSeqsSpec A T ids k 0 ≠ []
              then maxD (parSeqsSpec A T ids k 0) / 2 else 0)
          ∧ le.2.estimated_total = le.2.estimated_males + le.2.estimated_females) := by
  have hval : ∀ s ∈ ids.filter (fun s => (validate A T s).ok),
      (pyIntNat ((s.drop 14).take 3)).isSome = true := by
    intro s hs
    have hm := List.mem_filter.mp hs
    exact h s hm.1 hm.2
  have hfold := foldlM_eq_foldStats _ hval []
  have han : analyze A T ids = .ok
      { total_records := ids.length
        valid_records := (ids.filter (fun s => (validate A T s).ok)).length
        invalid_records := (ids.filter (fun s => !(validate A T s).ok)).length
        analysis_report := buildReport A
          (foldStats (ids.filter (fun s => (validate A T s).ok)) [])
        invalid_details := (ids.filter (fun s => !(validate A T s).ok)).map
          (fun s => (s, validate A T s)) } := by
    unfold analyze
    rw [hfold]
  have hnd : ((foldStats (ids.filter (fun s => (validate A T s).ok)) []).map
      Prod.fst).Nodup := nodup_keys_foldStats _ [] (by simp)
  have hpar1 : ∀ x : Nat, decide (x % 2 ≠ 0) = decide (x % 2 = 1) := by
    intro x
    rcases Nat.mod_two_eq_zero_or_one x with hx | hx <;> simp [hx]
  refine ⟨_, han, rfl, rfl, rfl, ?_, ?_⟩
  · intro s hs hok
    have hsv : s ∈ ids.filter (fun s => (validate A T s).ok) :=
      List.mem_filter.mpr ⟨hs, hok⟩
    have hkm := mem_keys_foldStats _ [] s hsv
    rcases List.mem_map.mp hkm with ⟨kd, hkd, hfst⟩
    have hlbl := mem_labels_foldReport A _ [] kd hkd
    rw [hfst] at hlbl
    exact hlbl
  · intro le hle
    have hmem := mem_buildReport_fold A
      (foldStats (ids.filter (fun s => (validate A T s).ok)) []) [] le.1 le.2 hle
    rcases hmem with h0 | ⟨⟨k, d⟩, hkd, hl, he⟩
    · simp at h0
    have hdeq : d = findBucket (foldStats (ids.filter (fun s => (validate A T s).ok)) []) k :=
      (findBucket_of_mem hnd hkd).symm
    rw [findBucket_foldStats] at hdeq
    have hmale : d.male_seqs = parSeqsSpec A T ids k 1 := by
      rw [hdeq]
      show ((findBucket [] k).male_seqs ++ _) = _
      simp only [findBucket, List.nil_append]
      unfold parSeqsSpec
      rw [List.filter_filter]
      apply congrArg (List.map seqValOf)
      apply List.filter_congr
      intro s _
      rw [hpar1 (seqValOf s)]
      generalize (validate A T s).ok = b1
      generalize decide (keyOf s = k) = b2
      generalize decide (seqValOf s % 2 = 1) = b3
      cases b1 <;> cases b2 <;> cases b3 <;> rfl
    have hfemale : d.female_seqs = parSeqsSpec A T ids k 0 := by
      rw [hdeq]
      show (_ ++ _ : List Nat) = _
      simp only [findBucket, List.nil_append]
      unfold parSeqsSpec
      rw [List.filter_filter]
      apply congrArg (List.map seqValOf)
      apply List.filter_congr
      intro s _
      generalize (validate A T s).ok = b1
      generalize decide (keyOf s = k) = b2
      generalize decide (seqValOf s % 2 = 0) = b3
      cases b1 <;> cases b2 <;> cases b3 <;> rfl
    have hodd : ∀ v ∈ parSeqsSpec A T ids k 1, v % 2 = 1 := by
      intro v hv
      rcases List.mem_map.mp hv with ⟨s, hsf, rfl⟩
      have hp := (List.mem_filter.mp hsf).2
      simp only [Bool.and_eq_true, decide_eq_true_eq] at hp
      exact hp.2
    refine ⟨k, hl, ?_, ?_, ?_, ?_, ?_⟩
    · have hkmem : k ∈ ((foldStats (ids.filter (fun s => (validate A T s).ok)) []).map
          Prod.fst) := List.mem_map.mpr ⟨(k, d), hkd, rfl⟩
      rcases keys_foldStats_sub _ [] k hkmem with h0 | ⟨s, hsv, hks⟩
      · simp at h0
      have hmf := List.mem_filter.mp hsv
      exact ⟨s, hmf.1, hmf.2, hks⟩
    · rw [he]
      show d.male_seqs.length + d.female_seqs.length = _
      rw [hmale, hfemale]
    · rw [he]
      show (if maxD d.male_seqs > 0 then (maxD d.male_seqs + 1) / 2 else 0) = _
      rw [hmale]
      exact male_estimate_eq hodd
    · rw [he]
      show (if maxD d.female_seqs > 0 then maxD d.female_seqs / 2 else 0) = _
      rw [hfemale]
      exact female_estimate_eq _
    · rw [he]
      rfl

/-- Witness for the amended C6 on a concrete sample of one valid and one
invalid record. -/
theorem analyze_groups_estimates_witness :
    ∃ r : AnalyzeResult,
      analyze demoTable demoToday ["11010519491231002X".toList, "123".toList] = .ok r
      ∧ r.total_records = (["11010519491231002X".toList, "123".toList] : List Chars).length
      ∧ r.valid_records = ((["11010519491231002X".toList, "123".toList] : List Chars).filter
          (fun s => (validate demoTable demoToday s).ok)).length
      ∧ r.invalid_records = ((["11010519491231002X".toList, "123".toList] : List Chars).filter
          (fun s => !(validate demoTable demoToday s).ok)).length
      ∧ (∀ s ∈ (["11010519491231002X".toList, "123".toList] : List Chars),
          (validate demoTable demoToday s).ok = true →
            entryLabel demoTable (keyOf s) ∈ r.analysis_report.map Prod.fst)
      ∧ (∀ le ∈ r.analysis_report, ∃ k : Chars × Chars,
          entryLabel demoTable k = le.1
          ∧ (∃ s ∈ (["11010519491231002X".toList, "123".toList] : List Chars),
              (validate demoTable demoToday s).ok = true ∧ keyOf s = k)
          ∧ le.2.sample_count = (parSeqsSpec demoTable demoToday
                ["11010519491231002X".toList, "123".toList] k 1).length
              + (parSeqsSpec demoTable demoToday
                ["11010519491231002X".toList, "123".toList] k 0).length
          ∧ le.2.estimated_males = (if parSeqsSpec demoTable demoToday
                ["11010519491231002X".toList, "123".toList] k 1 ≠ []
              then (maxD (parSeqsSpec demoTable demoToday
                ["11010519491231002X".toList, "123".toList] k 1) + 1) / 2 else 0)
          ∧ le.2.estimated_females = (if parSeqsSpec demoTable demoToday
                ["11010519491231002X".toList, "123".toList] k 0 ≠ []
              then maxD (parSeqsSpec demoTable demoToday
                ["11010519491231002X".toList, "123".toList] k 0) / 2 else 0)
          ∧ le.2.estimated_total = le.2.estimated_males + le.2.estimated_females) :=
  analyze_groups_estimates demoTable demoToday
    ["11010519491231002X".toList, "123".toList] (by decide)

/-- C8 counterexample: when the region file is missing, construction does
not fail; a toolkit with an empty region table is produced, and validation
proceeds to the address check: an otherwise valid id is rejected with the
address reason rather than the operation being refused. -/
theorem init_missing_cex :
    initCodes .missing = .ok []
    ∧ validate [] demoToday "11010519491231002X".toList
        = .addressError "110105".toList :=
  And.intro rfl rfl

/-- C8 (amended): an unparsable region source raises during construction
and no toolkit is produced, but a missing source is caught: a toolkit
with an empty region table is produced, and its region-dependent
operations proceed, with every id failing the region check (`validate`
never accepts, `guess` always reports the area error); only the bundled
CLI treats the empty table as fatal. -/
theorem init_outcomes :
    initCodes .malformed = .error .valueError
    ∧ initCodes .missing = .ok []
    ∧ (∀ (T : Ymd) (s : Chars), validate [] T s ≠ .valid)
    ∧ (∀ code bd g : Chars, guess [] code bd g = .ok (.errArea code)) := by
  refine ⟨rfl, rfl, ?_, ?_⟩
  · intro T s
    unfold validate validateCore
    repeat' split
    all_goals simp_all [hasCode]
  · intro code bd g
    unfold guess
    rw [if_pos (by simp [hasCode])]
